import Mathlib

/-!
Verification of the learning engine of the 99Names repository.

The engine consists of three parts, embedded below from the TypeScript
source:
* the answer normalizer and matcher (`src/utils/match.ts`),
* the SM-2 style spaced-repetition scheduler (`src/store/spacedRepetition.ts`),
* the session composer (`src/store/practice.ts`).

Modelling conventions:
* Strings are `List Char`.  The engine's claims only involve basic
  characters; on that fragment Unicode NFD normalization is the identity
  and there are no combining diacritical marks, so `stripDiacritics` and
  `trim` contribute nothing beyond what the subsequent `[^a-z]` filter
  already removes, and are folded into the lowercase-then-filter step.
* JavaScript numbers are modelled as `ℤ`/`ℕ` where the code keeps integer
  values (intervals, timestamps in milliseconds, counters) and as `ℚ`
  where the code performs fractional arithmetic (ease factors).  The
  constant multiplications by 0.2, 0.7 and 0.8 on the small integer
  ranges the code uses were checked to agree exactly with the rational
  arithmetic used here.
* `Math.floor` is `Int.floor` / natural division, `Math.round` is
  `jsRound` below (round half towards positive infinity, as in JS).
-/

namespace NinetyNine

/-- JavaScript `Math.round`: floor of `x + 1/2` (half rounds up). -/
def jsRound (q : ℚ) : ℤ := ⌊q + 1/2⌋

/-! ## Normalizer (`src/utils/match.ts`, `normalizeCore`) -/

/-- ASCII fragment of JS `String.prototype.toLowerCase`. -/
def jsToLower (c : Char) : Char :=
  if 'A' ≤ c ∧ c ≤ 'Z' then Char.ofNat (c.toNat + 32) else c

/-- Membership in `[a-z]`, the characters kept by `replace(/[^a-z]/g, "")`. -/
def isLowerAlpha (c : Char) : Bool := decide ('a' ≤ c ∧ c ≤ 'z')

/-- Stage `s.replace(/^(ar|al)/, "")`: drop one leading `ar` or `al`. -/
def dropPrefixArAl : List Char → List Char
  | 'a' :: 'r' :: rest => rest
  | 'a' :: 'l' :: rest => rest
  | s => s

/-- Stage `s.replace(/c+/g, "c")` for a fixed character `c`: collapse runs of `c`. -/
def collapseRuns (c : Char) : List Char → List Char
  | [] => []
  | [x] => [x]
  | x :: y :: rest =>
    if x = c ∧ y = c then collapseRuns c (y :: rest)
    else x :: collapseRuns c (y :: rest)

/-- Stage `s.replace(/ab/g, "r")` for fixed characters: global left-to-right
two-character replacement, resuming after each match. -/
def replacePair (a b r : Char) : List Char → List Char
  | x :: y :: rest =>
    if x = a ∧ y = b then r :: replacePair a b r rest
    else x :: replacePair a b r (y :: rest)
  | s => s

/-- Stage `s.replace(/ai|ei/g, "i")`. -/
def aieiRule : List Char → List Char
  | x :: y :: rest =>
    if (x = 'a' ∨ x = 'e') ∧ y = 'i' then 'i' :: aieiRule rest
    else x :: aieiRule (y :: rest)
  | s => s

/-- Stage `if (s.endsWith("en")) s = s.slice(0, -2) + "an"`. -/
def enRule (s : List Char) : List Char :=
  if s.drop (s.length - 2) = ['e', 'n'] then s.take (s.length - 2) ++ ['a', 'n']
  else s

/-- Stage `s.replace(/(.)\1+/g, "$1")`: collapse any run of a repeated character
(at this stage the string consists of letters only, so `.` matches every
character). -/
def collapseAdj : List Char → List Char
  | [] => []
  | [x] => [x]
  | x :: y :: rest =>
    if x = y then collapseAdj (y :: rest)
    else x :: collapseAdj (y :: rest)

/-- Function `normalizeCore` from `src/utils/match.ts`, stage by stage in source
order.  Lowercasing and the `[^a-z]` filter subsume `trim` and (on the
modelled fragment) diacritic stripping. -/
def normalizeCore (raw : List Char) : List Char :=
  let s0 := (raw.map jsToLower).filter isLowerAlpha
  let s1 := dropPrefixArAl s0
  let s2 := collapseRuns 'u' (collapseRuns 'o' (collapseRuns 'i'
              (collapseRuns 'e' (collapseRuns 'a' s1))))
  let s3 := aieiRule (replacePair 'o' 'u' 'u' (replacePair 'a' 'e' 'a' s2))
  let s4 := replacePair 'k' 'h' 'h' s3
  let s5 := enRule s4
  collapseAdj s5

/-- No two adjacent characters are equal (the shape of any
`collapseAdj` output). -/
def dupFree : List Char → Bool
  | [] => true
  | [_] => true
  | x :: y :: rest => !(x == y) && dupFree (y :: rest)

/-- Every character is a lowercase letter (the shape of the filtered
stage-0 string of `normalizeCore`). -/
def allLower (l : List Char) : Prop := ∀ c ∈ l, isLowerAlpha c = true

/-! ## Matcher (`src/utils/match.ts`, `levenshtein`, `matchesName`) -/

/-- Inner loop of the Levenshtein DP row update: `diag` is the previous
row's value at `j-1`, `left` the freshly computed value at `j-1`. -/
def levGo (x : Char) : ℕ → ℕ → List ℕ → List Char → List ℕ
  | diag, left, oldj :: oldRest, c :: cRest =>
    let v := min (oldj + 1) (min (left + 1) (diag + if x = c then 0 else 1))
    v :: levGo x oldj v oldRest cRest
  | _, _, _, _ => []

/-- One row update of the dynamic-programming table. -/
def levRow (b : List Char) (row : List ℕ) (x : Char) : List ℕ :=
  match row with
  | [] => []
  | p0 :: ps => (p0 + 1) :: levGo x p0 (p0 + 1) ps b

/-- Function `levenshtein` from `src/utils/match.ts`: row-by-row DP with the same
early returns as the source. -/
def levenshtein (a b : List Char) : ℕ :=
  if a = b then 0
  else if a.isEmpty then b.length
  else if b.isEmpty then a.length
  else (a.foldl (levRow b) (List.range (b.length + 1))).getLastD 0

/-- The `SIMILAR_SHORT_NAMES` set from `src/utils/match.ts`. -/
def SIMILAR_SHORT_NAMES : List (List Char) :=
  ["ali".toList, "alim".toList, "aleem".toList, "aalim".toList,
   "aalee".toList, "alee".toList,
   "halim".toList, "haleem".toList, "haalim".toList,
   "hakam".toList, "haakam".toList, "hakaam".toList,
   "hakim".toList, "hakeem".toList, "haakim".toList,
   "azim".toList, "azeem".toList, "aazim".toList,
   "aziz".toList, "azeez".toList, "azees".toList]

/-- An item of the catalog; only the fields the engine reads are
modelled (`id`, `englishName`, `aliases`); display-only fields of
`DivineName` are omitted. -/
structure DivineName where
  id : ℕ
  englishName : List Char
  aliases : List (List Char)
deriving DecidableEq

/-- The callback applied to each candidate in the strict branch of
`matchesName` (inputs that are known confusable short names or have
normalized length at most 5). -/
def strictShortCheck (normInput c : List Char) : Bool :=
  if normInput = c then true
  else
    let distance := levenshtein normInput c
    if distance > 1 then false
    else if SIMILAR_SHORT_NAMES.contains normInput ∧ SIMILAR_SHORT_NAMES.contains c then
      decide (normInput.length > c.length + 1)
    else if normInput.length > c.length ∧ distance = 1 then true
    else if ((normInput.length : ℤ) - (c.length : ℤ)).natAbs ≤ 1 ∧
            max normInput.length c.length ≤ 5 then false
    else decide (distance ≤ 1)

/-- Function `matchesName` from `src/utils/match.ts`. -/
def matchesName (input : List Char) (target : DivineName) : Bool :=
  let normInput := normalizeCore input
  let candidates := (target.englishName :: target.aliases).map normalizeCore
  if candidates.any (fun c => normInput == c) then true
  else if normInput.length ≤ 3 then false
  else if SIMILAR_SHORT_NAMES.contains normInput ∨ normInput.length ≤ 5 then
    candidates.any (fun c => strictShortCheck normInput c)
  else
    candidates.any (fun c => levenshtein normInput c ≤ 1)

/-- Exact-match test: the first branch of `matchesName` on its own
(normalized input equals the normalized name or a normalized alias). -/
def exactMatches (input : List Char) (target : DivineName) : Bool :=
  ((target.englishName :: target.aliases).map normalizeCore).any
    (fun c => normalizeCore input == c)

/-! ## Scheduler (`src/store/spacedRepetition.ts`) -/

/-- Learning stage of an item. -/
inductive Stage where
  | new
  | learning
  | young
  | mature
deriving DecidableEq

/-- Per-item spaced-repetition record (`SpacedRepetitionItem` from
`src/utils/spacedRepetitionDB.ts`).  Timestamps are epoch milliseconds;
`lastReview` is `none` for a never-reviewed item. -/
structure SpacedRepetitionItem where
  nameId : ℕ
  interval : ℤ
  repetition : ℤ
  easeFactor : ℚ
  consecutiveCorrect : ℕ
  lastReview : Option ℤ
  nextReview : ℤ
  stage : Stage
deriving DecidableEq

/-- Function `getItemStage` from `src/store/spacedRepetition.ts`: derives the stage
from the numeric fields (`!item.lastReview || item.lastReview.getTime() === 0`
becomes `lastReview = none ∨ lastReview = some 0`). -/
def getItemStage (item : SpacedRepetitionItem) : Stage :=
  if item.consecutiveCorrect = 0 ∧ (item.lastReview = none ∨ item.lastReview = some 0) then
    Stage.new
  else if item.consecutiveCorrect < 2 then Stage.learning
  else if item.interval < 21 then Stage.young
  else Stage.mature

/-- Function `updateSpacedRepetition` from `src/store/spacedRepetition.ts` (the
final soft-reset revision, which the spec adopts as canonical).  The
wall-clock read `new Date()` is the explicit parameter `now`; one day is
`24 * 60 * 60 * 1000 = 86400000` milliseconds. -/
def updateSpacedRepetition (item : SpacedRepetitionItem) (quality : ℤ) (now : ℤ) :
    SpacedRepetitionItem :=
  if quality < 3 then
    { item with
      interval := max 1 ⌊(item.interval : ℚ) * (1/5)⌋
      consecutiveCorrect := 0
      repetition := 0
      lastReview := some now
      nextReview := now + 86400000
      stage := Stage.learning }
  else
    let newInterval : ℤ :=
      if item.consecutiveCorrect = 0 then 1
      else if item.consecutiveCorrect = 1 then 3
      else if item.consecutiveCorrect = 2 then 7
      else jsRound ((item.interval : ℚ) * item.easeFactor)
    let newEaseFactor : ℚ :=
      max (13/10)
        (item.easeFactor + (1/10 - (5 - (quality : ℚ)) * (2/25 + (5 - (quality : ℚ)) * (1/50))))
    { item with
      interval := newInterval
      easeFactor := newEaseFactor
      consecutiveCorrect := item.consecutiveCorrect + 1
      repetition := (item.consecutiveCorrect : ℤ) + 1
      lastReview := some now
      nextReview := now + newInterval * 86400000
      stage := getItemStage
        { item with consecutiveCorrect := item.consecutiveCorrect + 1, interval := newInterval } }

/-- A concrete memory state used to instantiate theorems with hypotheses. -/
def sampleItem : SpacedRepetitionItem :=
  { nameId := 1
    interval := 10
    repetition := 3
    easeFactor := 5/2
    consecutiveCorrect := 3
    lastReview := some 1
    nextReview := 0
    stage := Stage.young }

/-! ## Session composer (`src/store/practice.ts`) -/

/-- Type `PracticeItemType` from `src/store/practice.ts`. -/
inductive PracticeItemType where
  | review
  | new
  | reinforcement
  | challenge
deriving DecidableEq

/-- The difficulty tag of a `PracticeItem`. -/
inductive Difficulty where
  | easy
  | medium
  | hard
deriving DecidableEq

/-- Type `PracticeItem` from `src/store/practice.ts`; the optional
spaced-repetition fields are `Option`s as in the source. -/
structure PracticeItem where
  id : String
  type : PracticeItemType
  nameId : ℕ
  name : DivineName
  priority : ℤ
  estimatedTime : ℕ
  difficulty : Difficulty
  interval : Option ℤ
  easeFactor : Option ℚ
  consecutiveCorrect : Option ℕ
  lastReviewed : Option ℤ
  nextReview : Option ℤ
deriving DecidableEq

/-- Rank used by the final ordering (`typeOrder` in the source). -/
def typeOrder : PracticeItemType → ℕ
  | PracticeItemType.review => 0
  | PracticeItemType.new => 1
  | PracticeItemType.reinforcement => 2
  | PracticeItemType.challenge => 3

/-- Stable insertion of `x` before the first element `y` with `le x y`. -/
def insertLe (le : α → α → Bool) (x : α) : List α → List α
  | [] => [x]
  | y :: ys => if le x y then x :: y :: ys else y :: insertLe le x ys

/-- Stable sort modelling `Array.prototype.sort` with a comparator `c`:
`le a b` stands for `c(a, b) ≤ 0`, and compare-equal elements keep their
input order. -/
def jsSortBy (le : α → α → Bool) : List α → List α
  | [] => []
  | x :: xs => insertLe le x (jsSortBy le xs)

/-- The `review` session entry built in step 1 of `generateOptimalSession`
(`i` is the position in the due list, `Date.now()` is modelled by the same
instant `now`). -/
def reviewItem (i : ℕ) (it : SpacedRepetitionItem) (name : DivineName) (now : ℤ) :
    PracticeItem :=
  { id := "review-" ++ toString it.nameId ++ "-" ++ toString now ++ "-" ++ toString i
    type := PracticeItemType.review
    nameId := it.nameId
    name := name
    priority := 10 - (i : ℤ)
    estimatedTime := 45
    difficulty := if it.consecutiveCorrect < 2 then Difficulty.hard else Difficulty.medium
    interval := some it.interval
    easeFactor := some it.easeFactor
    consecutiveCorrect := some it.consecutiveCorrect
    lastReviewed := some (it.lastReview.getD 0)
    nextReview := some it.nextReview }

/-- The `new` session entry built in step 2 of `generateOptimalSession`. -/
def newItem (i : ℕ) (name : DivineName) (now : ℤ) : PracticeItem :=
  { id := "new-" ++ toString name.id ++ "-" ++ toString now ++ "-" ++ toString i
    type := PracticeItemType.new
    nameId := name.id
    name := name
    priority := 5
    estimatedTime := 60
    difficulty := Difficulty.easy
    interval := none
    easeFactor := none
    consecutiveCorrect := none
    lastReviewed := none
    nextReview := none }

/-- The `reinforcement` session entry built in step 3 of
`generateOptimalSession`. -/
def reinforcementItem (i : ℕ) (it : SpacedRepetitionItem) (name : DivineName) (now : ℤ) :
    PracticeItem :=
  { id := "reinforcement-" ++ toString it.nameId ++ "-" ++ toString now ++ "-" ++ toString i
    type := PracticeItemType.reinforcement
    nameId := it.nameId
    name := name
    priority := 3
    estimatedTime := 40
    difficulty := Difficulty.easy
    interval := some it.interval
    easeFactor := some it.easeFactor
    consecutiveCorrect := some it.consecutiveCorrect
    lastReviewed := some (it.lastReview.getD 0)
    nextReview := some it.nextReview }

/-- Step 1 filter and sort of `generateOptimalSession`: items due at
`now`, most overdue first (`bOverdue - aOverdue` comparator). -/
def duePool (spacedRepItems : List SpacedRepetitionItem) (now : ℤ) :
    List SpacedRepetitionItem :=
  jsSortBy (fun a b => decide (now - b.nextReview ≤ now - a.nextReview))
    (spacedRepItems.filter (fun it => decide (it.nextReview ≤ now)))

/-- The review-building loop of step 1: the first `reviewLimit` due items,
each resolved against the catalog (skipped when no name matches). -/
def reviewsPart (allNames : List DivineName) (dueItems : List SpacedRepetitionItem)
    (reviewLimit : ℕ) (now : ℤ) : List PracticeItem :=
  (dueItems.take reviewLimit).enum.filterMap (fun p =>
    (allNames.find? (fun n => n.id == p.2.nameId)).map
      (fun name => reviewItem p.1 p.2 name now))

/-- The new-content loop of step 2: the first `k` unlearned names. -/
def newPart (newNames : List DivineName) (k : ℕ) (now : ℤ) : List PracticeItem :=
  (newNames.take k).enum.map (fun p => newItem p.1 p.2 now)

/-- Step 3 filter and sort: weak items (`consecutiveCorrect < 3`) not
already in the session, weakest first. -/
def weakPool (spacedRepItems : List SpacedRepetitionItem) (session : List PracticeItem) :
    List SpacedRepetitionItem :=
  jsSortBy (fun a b => decide (a.consecutiveCorrect ≤ b.consecutiveCorrect))
    (spacedRepItems.filter (fun it =>
      decide (it.consecutiveCorrect < 3) && !(session.any (fun s => s.nameId == it.nameId))))

/-- The reinforcement-building loop of step 3. -/
def reinforcementPart (allNames : List DivineName) (weakItems : List SpacedRepetitionItem)
    (k : ℕ) (now : ℤ) : List PracticeItem :=
  (weakItems.take k).enum.filterMap (fun p =>
    (allNames.find? (fun n => n.id == p.2.nameId)).map
      (fun name => reinforcementItem p.1 p.2 name now))

/-- Step 2 of `generateOptimalSession`: add up to three new names when the
session is below 80% of capacity and unlearned names exist. -/
def sessionAfterNew (session1 : List PracticeItem) (newNames : List DivineName)
    (maxItems : ℕ) (now : ℤ) : List PracticeItem :=
  if 5 * session1.length < 4 * maxItems ∧ 0 < newNames.length then
    session1 ++ newPart newNames
      (min 3 (min (maxItems - session1.length) newNames.length)) now
  else session1

/-- Step 3 of `generateOptimalSession`: fill the remaining capacity with
reinforcement of weak items. -/
def sessionAfterReinforcement (allNames : List DivineName)
    (spacedRepItems : List SpacedRepetitionItem) (session2 : List PracticeItem)
    (maxItems : ℕ) (now : ℤ) : List PracticeItem :=
  if session2.length < maxItems then
    session2 ++ reinforcementPart allNames (weakPool spacedRepItems session2)
      (min (maxItems - session2.length) (weakPool spacedRepItems session2).length) now
  else session2

/-- The comparator of the final ordering of `generateOptimalSession`:
reviews before new before reinforcement, then by priority descending. -/
def finalLe (a b : PracticeItem) : Bool :=
  if a.type = b.type then decide (b.priority ≤ a.priority)
  else decide (typeOrder a.type ≤ typeOrder b.type)

/-- Function `generateOptimalSession` from `src/store/practice.ts`, assembled from
the step functions above; the spaced-repetition records loaded from the
store are the explicit parameter `spacedRepItems`. -/
def generateOptimalSession (allNames : List DivineName)
    (spacedRepItems : List SpacedRepetitionItem) (now : ℤ) (targetDuration : ℕ) :
    List PracticeItem :=
  let maxItems := min 20 (targetDuration / 45)
  let dueItems := duePool spacedRepItems now
  let session1 := reviewsPart allNames dueItems (min (7 * maxItems / 10) dueItems.length) now
  let newNames := allNames.filter (fun n =>
    !((spacedRepItems.map (fun it => it.nameId)).contains n.id))
  let session2 := sessionAfterNew session1 newNames maxItems now
  let session3 := sessionAfterReinforcement allNames spacedRepItems session2 maxItems now
  jsSortBy finalLe session3

/-- The entry built by `createFallbackSession`. -/
def fallbackItem (i : ℕ) (name : DivineName) (now : ℤ) : PracticeItem :=
  { id := "fallback-" ++ toString name.id ++ "-" ++ toString now ++ "-" ++ toString i
    type := PracticeItemType.new
    nameId := name.id
    name := name
    priority := 5
    estimatedTime := 60
    difficulty := Difficulty.easy
    interval := none
    easeFactor := none
    consecutiveCorrect := none
    lastReviewed := none
    nextReview := none }

/-- Function `createFallbackSession` from `src/store/practice.ts`. -/
def createFallbackSession (allNames : List DivineName) (targetDuration : ℕ) (now : ℤ) :
    List PracticeItem :=
  let maxItems := min 10 (targetDuration / 60)
  (allNames.take (min maxItems allNames.length)).enum.map (fun p => fallbackItem p.1 p.2 now)

/-- The session actually installed by `generateSmartSession`: the optimal
session, or the fallback when it came out empty despite a non-empty
catalog. -/
def generateSmartSession (allNames : List DivineName)
    (spacedRepItems : List SpacedRepetitionItem) (now : ℤ) (targetDuration : ℕ) :
    List PracticeItem :=
  let session := generateOptimalSession allNames spacedRepItems now targetDuration
  if session.length = 0 ∧ 0 < allNames.length then
    createFallbackSession allNames targetDuration now
  else session

/-- A concrete catalog entry used to instantiate theorems with
hypotheses. -/
def sampleName : DivineName := ⟨1, "a".toList, []⟩

/-- A catalog item named Aleem (no aliases), for the matcher examples. -/
def aleemName : DivineName := ⟨1, "Aleem".toList, []⟩

/-- A catalog item named Rahman (no aliases), for the matcher examples. -/
def rahmanName : DivineName := ⟨2, "Rahman".toList, []⟩

/-! ### Sanity checks

Concrete evaluations of the embedding, matching hand-executions of the
TypeScript source (the matcher examples of spec §8, additional
normalizer traces, the end-to-end scheduler scenario of spec §8, and
small composer runs). -/

example : normalizeCore ("aali".toList) = "ali".toList := by decide
example : normalizeCore ("ali".toList) = "i".toList := by decide
example : normalizeCore ("Rahman".toList) = "rahman".toList := by decide
example : normalizeCore ("rahmaan".toList) = "rahman".toList := by decide
example : normalizeCore ("Aleem".toList) = "em".toList := by decide
example : normalizeCore ("eai".toList) = "ei".toList := by decide
example : normalizeCore ("enn".toList) = "en".toList := by decide
example : normalizeCore ("kkh".toList) = "kh".toList := by decide
example : levenshtein ("kitten".toList) ("sitting".toList) = 3 := by decide
example : levenshtein ("rahman".toList) ("rahman".toList) = 0 := by decide
example : levenshtein ("abc".toList) ("".toList) = 3 := by decide
example : matchesName ("rahmaan".toList) ⟨2, "Rahman".toList, []⟩ = true := by decide
example : matchesName ("ali".toList) ⟨1, "Aleem".toList, []⟩ = false := by decide
example : matchesName ("xyz".toList) ⟨2, "Rahman".toList, []⟩ = false := by decide
example : matchesName ("rahmen".toList) ⟨2, "Rahman".toList, []⟩ = true := by decide

example :
    let s0 : SpacedRepetitionItem :=
      ⟨1, 1, 0, 5/2, 0, none, 0, Stage.new⟩
    let s1 := updateSpacedRepetition s0 4 86400000
    let s2 := updateSpacedRepetition s1 5 (2 * 86400000)
    let s3 := updateSpacedRepetition s2 4 (3 * 86400000)
    let s4 := updateSpacedRepetition s3 1 (4 * 86400000)
    s1.interval = 1 ∧ s1.consecutiveCorrect = 1 ∧ s1.stage = Stage.learning ∧
    s2.interval = 3 ∧ s2.consecutiveCorrect = 2 ∧
    s3.interval = 7 ∧ s3.consecutiveCorrect = 3 ∧ s3.stage = Stage.young ∧
    s4.interval = 1 ∧ s4.consecutiveCorrect = 0 ∧ s4.stage = Stage.learning := by
  norm_num [updateSpacedRepetition, getItemStage]

example :
    let n1 : DivineName := ⟨1, "a".toList, []⟩
    let n2 : DivineName := ⟨2, "b".toList, []⟩
    let n3 : DivineName := ⟨3, "c".toList, []⟩
    let st1 : SpacedRepetitionItem := ⟨1, 1, 0, 2, 1, some 1, 50, Stage.learning⟩
    let st2 : SpacedRepetitionItem := ⟨2, 1, 0, 2, 1, some 1, 500, Stage.learning⟩
    (generateOptimalSession [n1, n2, n3] [st1, st2] 100 900).map
        (fun x => x.nameId) = [1, 3, 2] := by
  decide

example :
    let n1 : DivineName := ⟨1, "a".toList, []⟩
    (generateOptimalSession [n1, n1] [] 0 900).map (fun x => x.nameId) = [1, 1] := by
  decide

example :
    let n1 : DivineName := ⟨1, "a".toList, []⟩
    let st1 : SpacedRepetitionItem := ⟨1, 1, 0, 2, 3, some 1, 500, Stage.young⟩
    generateSmartSession [n1] [st1] 0 45 = [] := by
  decide

example :
    let n1 : DivineName := ⟨1, "a".toList, []⟩
    let st1 : SpacedRepetitionItem := ⟨1, 1, 0, 2, 3, some 1, 500, Stage.young⟩
    (generateSmartSession [n1] [st1] 0 60).map (fun x => x.nameId) = [1] := by
  decide

/-! ### Composer lemmas -/

theorem length_insertLe (le : α → α → Bool) (x : α) (l : List α) :
    (insertLe le x l).length = l.length + 1 := by
  induction l with
  | nil => rfl
  | cons y ys ih =>
    simp only [insertLe]
    split
    · simp
    · simp [ih]

theorem length_jsSortBy (le : α → α → Bool) (l : List α) :
    (jsSortBy le l).length = l.length := by
  induction l with
  | nil => rfl
  | cons x xs ih => simp [jsSortBy, length_insertLe, ih]

theorem insertLe_perm (le : α → α → Bool) (x : α) (l : List α) :
    List.Perm (insertLe le x l) (x :: l) := by
  induction l with
  | nil => exact List.Perm.refl _
  | cons y ys ih =>
    simp only [insertLe]
    split
    · exact List.Perm.refl _
    · exact (List.Perm.cons y ih).trans (List.Perm.swap x y ys)

theorem jsSortBy_perm (le : α → α → Bool) (l : List α) :
    List.Perm (jsSortBy le l) l := by
  induction l with
  | nil => exact List.Perm.refl _
  | cons x xs ih => exact (insertLe_perm le x _).trans (List.Perm.cons x ih)

theorem reviewsPart_length_le (allNames : List DivineName)
    (dueItems : List SpacedRepetitionItem) (reviewLimit : ℕ) (now : ℤ) :
    (reviewsPart allNames dueItems reviewLimit now).length ≤ reviewLimit :=
  calc (reviewsPart allNames dueItems reviewLimit now).length
      ≤ (dueItems.take reviewLimit).enum.length := List.length_filterMap_le _ _
    _ = (dueItems.take reviewLimit).length := List.enum_length
    _ ≤ reviewLimit := List.length_take_le _ _

theorem newPart_length_le (newNames : List DivineName) (k : ℕ) (now : ℤ) :
    (newPart newNames k now).length ≤ k := by
  simp only [newPart, List.length_map, List.enum_length]
  exact List.length_take_le _ _

theorem reinforcementPart_length_le (allNames : List DivineName)
    (weakItems : List SpacedRepetitionItem) (k : ℕ) (now : ℤ) :
    (reinforcementPart allNames weakItems k now).length ≤ k :=
  calc (reinforcementPart allNames weakItems k now).length
      ≤ (weakItems.take k).enum.length := List.length_filterMap_le _ _
    _ = (weakItems.take k).length := List.enum_length
    _ ≤ k := List.length_take_le _ _

theorem sessionAfterNew_length_le (session1 : List PracticeItem)
    (newNames : List DivineName) (maxItems : ℕ) (now : ℤ)
    (h1 : session1.length ≤ maxItems) :
    (sessionAfterNew session1 newNames maxItems now).length ≤ maxItems := by
  unfold sessionAfterNew
  split
  · have h2 := newPart_length_le newNames
      (min 3 (min (maxItems - session1.length) newNames.length)) now
    simp only [List.length_append]
    omega
  · exact h1

theorem sessionAfterReinforcement_length_le (allNames : List DivineName)
    (spacedRepItems : List SpacedRepetitionItem) (session2 : List PracticeItem)
    (maxItems : ℕ) (now : ℤ) (h2 : session2.length ≤ maxItems) :
    (sessionAfterReinforcement allNames spacedRepItems session2 maxItems now).length
      ≤ maxItems := by
  unfold sessionAfterReinforcement
  split
  · have h3 := reinforcementPart_length_le allNames (weakPool spacedRepItems session2)
      (min (maxItems - session2.length) (weakPool spacedRepItems session2).length) now
    simp only [List.length_append]
    omega
  · exact h2

theorem take_min_self (l : List α) (n : ℕ) : l.take (min n l.length) = l.take n := by
  rcases le_total n l.length with h | h
  · rw [Nat.min_eq_left h]
  · rw [Nat.min_eq_right h, List.take_of_length_le (le_refl _), List.take_of_length_le h]

theorem filterMap_build_ids_sublist (allNames : List DivineName) (now : ℤ)
    (mk : ℕ → SpacedRepetitionItem → DivineName → ℤ → PracticeItem)
    (hmk : ∀ i it n, (mk i it n now).nameId = it.nameId)
    (l : List SpacedRepetitionItem) (i0 : ℕ) :
    List.Sublist
      (((List.enumFrom i0 l).filterMap (fun p =>
          (allNames.find? (fun n => n.id == p.2.nameId)).map
            (fun name => mk p.1 p.2 name now))).map (fun x => x.nameId))
      (l.map (fun it => it.nameId)) := by
  induction l generalizing i0 with
  | nil => simp
  | cons it t ih =>
    simp only [List.enumFrom_cons, List.filterMap_cons]
    cases h : List.find? (fun n => n.id == it.nameId) allNames with
    | none =>
      simp only [Option.map_none', List.map_cons]
      exact List.Sublist.cons _ (ih (i0 + 1))
    | some nm =>
      simp only [Option.map_some', List.map_cons, hmk]
      exact List.Sublist.cons₂ _ (ih (i0 + 1))

theorem reviewsPart_ids_sublist (allNames : List DivineName)
    (dueItems : List SpacedRepetitionItem) (k : ℕ) (now : ℤ) :
    List.Sublist ((reviewsPart allNames dueItems k now).map (fun x => x.nameId))
      ((dueItems.take k).map (fun it => it.nameId)) :=
  filterMap_build_ids_sublist allNames now reviewItem (fun _ _ _ => rfl) (dueItems.take k) 0

theorem reinforcementPart_ids_sublist (allNames : List DivineName)
    (weakItems : List SpacedRepetitionItem) (k : ℕ) (now : ℤ) :
    List.Sublist ((reinforcementPart allNames weakItems k now).map (fun x => x.nameId))
      ((weakItems.take k).map (fun it => it.nameId)) :=
  filterMap_build_ids_sublist allNames now reinforcementItem (fun _ _ _ => rfl)
    (weakItems.take k) 0

theorem enumFrom_build_ids (now : ℤ) (mk : ℕ → DivineName → ℤ → PracticeItem)
    (hmk : ∀ i n, (mk i n now).nameId = n.id)
    (l : List DivineName) (i0 : ℕ) :
    ((List.enumFrom i0 l).map (fun p => mk p.1 p.2 now)).map (fun x => x.nameId) =
      l.map (fun n => n.id) := by
  induction l generalizing i0 with
  | nil => rfl
  | cons n t ih => simp [List.enumFrom_cons, hmk, ih]

theorem newPart_ids (newNames : List DivineName) (k : ℕ) (now : ℤ) :
    (newPart newNames k now).map (fun x => x.nameId) =
      (newNames.take k).map (fun n => n.id) :=
  enumFrom_build_ids now newItem (fun _ _ => rfl) (newNames.take k) 0

theorem createFallbackSession_ids (allNames : List DivineName) (targetDuration : ℕ)
    (now : ℤ) :
    (createFallbackSession allNames targetDuration now).map (fun x => x.nameId) =
      (allNames.take (min 10 (targetDuration / 60))).map (fun n => n.id) := by
  calc (createFallbackSession allNames targetDuration now).map (fun x => x.nameId)
      = (allNames.take (min (min 10 (targetDuration / 60)) allNames.length)).map
          (fun n => n.id) :=
        enumFrom_build_ids now fallbackItem (fun _ _ => rfl) _ 0
    _ = (allNames.take (min 10 (targetDuration / 60))).map (fun n => n.id) := by
        rw [take_min_self]

theorem createFallbackSession_length (allNames : List DivineName) (targetDuration : ℕ)
    (now : ℤ) :
    (createFallbackSession allNames targetDuration now).length =
      min (min 10 (targetDuration / 60)) allNames.length := by
  simp only [createFallbackSession, List.length_map, List.enum_length, List.length_take]
  omega

theorem createFallbackSession_types (allNames : List DivineName) (targetDuration : ℕ)
    (now : ℤ) :
    ∀ x ∈ createFallbackSession allNames targetDuration now,
      x.type = PracticeItemType.new := by
  intro x hx
  simp only [createFallbackSession, List.mem_map] at hx
  obtain ⟨p, _, rfl⟩ := hx
  rfl

theorem sessionAfterNew_ids_nodup (session1 : List PracticeItem)
    (newNames : List DivineName) (maxItems : ℕ) (now : ℤ)
    (h1 : (session1.map (fun x => x.nameId)).Nodup)
    (hnn : (newNames.map (fun n => n.id)).Nodup)
    (hdisj : ∀ n ∈ newNames, ¬ n.id ∈ session1.map (fun x => x.nameId)) :
    ((sessionAfterNew session1 newNames maxItems now).map (fun x => x.nameId)).Nodup := by
  unfold sessionAfterNew
  split
  · rw [List.map_append]
    refine List.Nodup.append h1 ?_ ?_
    · rw [newPart_ids]
      exact List.Nodup.sublist (List.Sublist.map _ (List.take_sublist _ _)) hnn
    · intro a ha hb
      rw [newPart_ids] at hb
      obtain ⟨n, hn', rfl⟩ := List.mem_map.mp hb
      exact hdisj n (List.take_subset _ _ hn') ha
  · exact h1

theorem sessionAfterReinforcement_ids_nodup (allNames : List DivineName)
    (spacedRepItems : List SpacedRepetitionItem) (session2 : List PracticeItem)
    (maxItems : ℕ) (now : ℤ)
    (h2 : (session2.map (fun x => x.nameId)).Nodup)
    (hs : (spacedRepItems.map (fun it => it.nameId)).Nodup) :
    ((sessionAfterReinforcement allNames spacedRepItems session2 maxItems now).map
        (fun x => x.nameId)).Nodup := by
  unfold sessionAfterReinforcement
  split
  · rw [List.map_append]
    have hweakperm : List.Perm
        ((weakPool spacedRepItems session2).map (fun it => it.nameId))
        ((spacedRepItems.filter (fun it =>
            decide (it.consecutiveCorrect < 3) &&
              !(session2.any (fun s => s.nameId == it.nameId)))).map
          (fun it => it.nameId)) :=
      (jsSortBy_perm _ _).map _
    have hweak : ((weakPool spacedRepItems session2).map (fun it => it.nameId)).Nodup :=
      hweakperm.nodup_iff.mpr
        (List.Nodup.sublist (List.Sublist.map _ (List.filter_sublist _)) hs)
    have hsub := reinforcementPart_ids_sublist allNames (weakPool spacedRepItems session2)
      (min (maxItems - session2.length) (weakPool spacedRepItems session2).length) now
    refine List.Nodup.append h2 ?_ ?_
    · exact List.Nodup.sublist
        (hsub.trans (List.Sublist.map _ (List.take_sublist _ _))) hweak
    · intro a ha hb
      have hb' : a ∈ (weakPool spacedRepItems session2).map (fun it => it.nameId) :=
        (hsub.trans (List.Sublist.map _ (List.take_sublist _ _))).subset hb
      have hb'' := hweakperm.subset hb'
      obtain ⟨it, hit, rfl⟩ := List.mem_map.mp hb''
      have hpred := (List.mem_filter.mp hit).2
      rw [Bool.and_eq_true, Bool.not_eq_true'] at hpred
      have hnone := List.any_eq_false.mp hpred.2
      obtain ⟨s, hsmem, hsid⟩ := List.mem_map.mp ha
      exact absurd hsid (by simpa using hnone s hsmem)
  · exact h2

/-- C3: the composed session never exceeds
`maxItems = min 20 (targetDuration / 45)` entries; in particular it never
exceeds 20 entries. -/
theorem composer_cap (allNames : List DivineName)
    (spacedRepItems : List SpacedRepetitionItem) (now : ℤ) (targetDuration : ℕ) :
    (generateOptimalSession allNames spacedRepItems now targetDuration).length ≤
        min 20 (targetDuration / 45) ∧
    (generateOptimalSession allNames spacedRepItems now targetDuration).length ≤ 20 := by
  have h : (generateOptimalSession allNames spacedRepItems now targetDuration).length ≤
      min 20 (targetDuration / 45) := by
    simp only [generateOptimalSession]
    rw [length_jsSortBy]
    apply sessionAfterReinforcement_length_le
    apply sessionAfterNew_length_le
    exact le_trans (reviewsPart_length_le _ _ _ _) (by omega)
  exact ⟨h, le_trans h (min_le_left _ _)⟩

/-- C4 counterexample: with a 45-second target duration, a one-item
catalog, and a strong non-due memory state, the composed session and its
fallback are both empty even though the catalog is not — the claimed
unconditional non-emptiness fails. -/
theorem smart_session_empty_counterexample :
    generateSmartSession [⟨1, "a".toList, []⟩]
        [⟨1, 1, 0, 2, 3, some 1, 500, Stage.young⟩] 0 45 = [] ∧
    ([⟨1, "a".toList, []⟩] : List DivineName) ≠ [] :=
  ⟨by decide, by decide⟩

/-- C4 (amended): provided the target duration is at least 60 seconds, a
non-empty catalog yields a non-empty session; when the composer's
selection is empty the result is the fallback session, which consists of
the first `min 10 (targetDuration / 60)` catalog items, all typed `new`.
(The unamended claim fails for target durations below 60 seconds, where
the fallback itself is empty.) -/
theorem smart_session_nonempty_amended (allNames : List DivineName)
    (spacedRepItems : List SpacedRepetitionItem) (now : ℤ) (targetDuration : ℕ)
    (hne : allNames ≠ []) (hd : 60 ≤ targetDuration) :
    generateSmartSession allNames spacedRepItems now targetDuration ≠ [] ∧
    (generateOptimalSession allNames spacedRepItems now targetDuration = [] →
      generateSmartSession allNames spacedRepItems now targetDuration =
        createFallbackSession allNames targetDuration now) ∧
    (createFallbackSession allNames targetDuration now).map (fun x => x.nameId) =
      (allNames.take (min 10 (targetDuration / 60))).map (fun n => n.id) ∧
    ∀ x ∈ createFallbackSession allNames targetDuration now,
      x.type = PracticeItemType.new := by
  have hpos : 0 < allNames.length := List.length_pos.mpr hne
  have hfb_len := createFallbackSession_length allNames targetDuration now
  have hfb_ne : createFallbackSession allNames targetDuration now ≠ [] := by
    rw [← List.length_pos, hfb_len]
    omega
  refine ⟨?_, ?_, createFallbackSession_ids allNames targetDuration now,
    createFallbackSession_types allNames targetDuration now⟩
  · by_cases hopt : generateOptimalSession allNames spacedRepItems now targetDuration = []
    · have heq : generateSmartSession allNames spacedRepItems now targetDuration =
          createFallbackSession allNames targetDuration now := by
        simp only [generateSmartSession]
        rw [if_pos ⟨by rw [hopt]; rfl, hpos⟩]
      rw [heq]
      exact hfb_ne
    · have heq : generateSmartSession allNames spacedRepItems now targetDuration =
          generateOptimalSession allNames spacedRepItems now targetDuration := by
        simp only [generateSmartSession]
        rw [if_neg]
        intro hcond
        exact hopt (List.length_eq_zero.mp hcond.1)
      rw [heq]
      exact hopt
  · intro hopt
    simp only [generateSmartSession]
    rw [if_pos ⟨by rw [hopt]; rfl, hpos⟩]

/-- Witness for the amended C4 at a one-item catalog and a 60-second
target duration. -/
theorem smart_session_nonempty_amended_witness :
    generateSmartSession [sampleName] [] 0 60 ≠ [] :=
  (smart_session_nonempty_amended [sampleName] [] 0 60 (by decide) (by decide)).1

/-- C10 counterexample: a catalog that repeats an id (with an empty, hence
trivially duplicate-free, state collection) produces a session containing
the same `nameId` twice. -/
theorem composer_duplicates_counterexample :
    ¬ (((generateOptimalSession [⟨1, "a".toList, []⟩, ⟨1, "a".toList, []⟩] [] 0 900).map
          (fun x => x.nameId)).Nodup) ∧
    (([] : List SpacedRepetitionItem).map (fun it => it.nameId)).Nodup :=
  ⟨by decide, by decide⟩

/-- C10 (amended): when no two catalog items share an id and no two memory
states share a `nameId`, the composed session mentions each `nameId` at
most once — the review, new, and reinforcement selections are pairwise
disjoint in `nameId`.  (The unamended claim, which does not restrict the
catalog, fails on a catalog with a repeated id.) -/
theorem composer_no_duplicate_names (allNames : List DivineName)
    (spacedRepItems : List SpacedRepetitionItem) (now : ℤ) (targetDuration : ℕ)
    (hn : (allNames.map (fun n => n.id)).Nodup)
    (hs : (spacedRepItems.map (fun it => it.nameId)).Nodup) :
    ((generateOptimalSession allNames spacedRepItems now targetDuration).map
        (fun x => x.nameId)).Nodup := by
  have hdueperm : List.Perm
      ((duePool spacedRepItems now).map (fun it => it.nameId))
      ((spacedRepItems.filter (fun it => decide (it.nextReview ≤ now))).map
        (fun it => it.nameId)) := (jsSortBy_perm _ _).map _
  have hdue : ((duePool spacedRepItems now).map (fun it => it.nameId)).Nodup :=
    hdueperm.nodup_iff.mpr
      (List.Nodup.sublist (List.Sublist.map _ (List.filter_sublist _)) hs)
  have hrs := reviewsPart_ids_sublist allNames (duePool spacedRepItems now)
    (min (7 * min 20 (targetDuration / 45) / 10) (duePool spacedRepItems now).length) now
  have h1 : ((reviewsPart allNames (duePool spacedRepItems now)
      (min (7 * min 20 (targetDuration / 45) / 10) (duePool spacedRepItems now).length)
      now).map (fun x => x.nameId)).Nodup :=
    List.Nodup.sublist (hrs.trans (List.Sublist.map _ (List.take_sublist _ _))) hdue
  have h1sub : ∀ a ∈ (reviewsPart allNames (duePool spacedRepItems now)
      (min (7 * min 20 (targetDuration / 45) / 10) (duePool spacedRepItems now).length)
      now).map (fun x => x.nameId), a ∈ spacedRepItems.map (fun it => it.nameId) := by
    intro a ha
    have h2 := (hrs.trans (List.Sublist.map _ (List.take_sublist _ _))).subset ha
    have h3 := hdueperm.subset h2
    exact (List.Sublist.map _ (List.filter_sublist _)).subset h3
  have hnn : ((allNames.filter (fun n =>
      !((spacedRepItems.map (fun it => it.nameId)).contains n.id))).map
        (fun n => n.id)).Nodup :=
    List.Nodup.sublist (List.Sublist.map _ (List.filter_sublist _)) hn
  have hdisj : ∀ n ∈ allNames.filter (fun n =>
      !((spacedRepItems.map (fun it => it.nameId)).contains n.id)),
      ¬ n.id ∈ (reviewsPart allNames (duePool spacedRepItems now)
        (min (7 * min 20 (targetDuration / 45) / 10) (duePool spacedRepItems now).length)
        now).map (fun x => x.nameId) := by
    intro n hmemf hmem
    have hpred := (List.mem_filter.mp hmemf).2
    rw [Bool.not_eq_true'] at hpred
    have hc : (spacedRepItems.map (fun it => it.nameId)).contains n.id = true :=
      List.elem_eq_true_of_mem (h1sub _ hmem)
    rw [hc] at hpred
    exact absurd hpred (by simp)
  have h2 := sessionAfterNew_ids_nodup _ _ (min 20 (targetDuration / 45)) now h1 hnn hdisj
  have h3 := sessionAfterReinforcement_ids_nodup allNames spacedRepItems _
    (min 20 (targetDuration / 45)) now h2 hs
  simp only [generateOptimalSession]
  exact ((jsSortBy_perm finalLe _).map (fun x => x.nameId)).nodup_iff.mpr h3

/-- Witness for the amended C10 at a concrete duplicate-free catalog and
state collection. -/
theorem composer_no_duplicate_names_witness :
    ((generateOptimalSession [sampleName] [] 0 900).map (fun x => x.nameId)).Nodup :=
  composer_no_duplicate_names [sampleName] [] 0 900 (by decide) (by decide)

/-- C1: for any memory state with interval `I` and any quality `q < 3`,
the scheduler lapse yields `interval = max 1 ⌊I * 0.2⌋`,
`consecutiveCorrect = 0`, `nextReview = now + 1 day` exactly, and
`stage = learning`. -/
theorem lapse_soft_reset (item : SpacedRepetitionItem) (quality now : ℤ)
    (hq : quality < 3) :
    (updateSpacedRepetition item quality now).interval =
        max 1 ⌊(item.interval : ℚ) * (1/5)⌋ ∧
    (updateSpacedRepetition item quality now).consecutiveCorrect = 0 ∧
    (updateSpacedRepetition item quality now).nextReview = now + 86400000 ∧
    (updateSpacedRepetition item quality now).stage = Stage.learning := by
  simp [updateSpacedRepetition, hq]

/-- Witness for C1 at a concrete state and rating. -/
theorem lapse_soft_reset_witness :
    (updateSpacedRepetition sampleItem 1 5).interval =
        max 1 ⌊((sampleItem.interval : ℚ)) * (1/5)⌋ ∧
    (updateSpacedRepetition sampleItem 1 5).consecutiveCorrect = 0 ∧
    (updateSpacedRepetition sampleItem 1 5).nextReview = 5 + 86400000 ∧
    (updateSpacedRepetition sampleItem 1 5).stage = Stage.learning :=
  lapse_soft_reset sampleItem 1 5 (by decide)

/-- C2: for any memory state and any quality `q ≥ 3`, the scheduler
increments `consecutiveCorrect`, sets the interval to 1/3/7 for the
first/second/third consecutive correct answer and to
`round(oldInterval * easeFactor)` afterwards, and sets
`nextReview = now + newInterval` days. -/
theorem success_progression (item : SpacedRepetitionItem) (quality now : ℤ)
    (hq : 3 ≤ quality) :
    (updateSpacedRepetition item quality now).consecutiveCorrect =
        item.consecutiveCorrect + 1 ∧
    (updateSpacedRepetition item quality now).interval =
      (if item.consecutiveCorrect = 0 then 1
       else if item.consecutiveCorrect = 1 then 3
       else if item.consecutiveCorrect = 2 then 7
       else jsRound ((item.interval : ℚ) * item.easeFactor)) ∧
    (updateSpacedRepetition item quality now).nextReview =
      now + (updateSpacedRepetition item quality now).interval * 86400000 := by
  have h : ¬ quality < 3 := not_lt.mpr hq
  simp [updateSpacedRepetition, h]

/-- Witness for C2 at a concrete state and rating. -/
theorem success_progression_witness :
    (updateSpacedRepetition sampleItem 4 5).consecutiveCorrect =
        sampleItem.consecutiveCorrect + 1 ∧
    (updateSpacedRepetition sampleItem 4 5).interval =
      (if sampleItem.consecutiveCorrect = 0 then 1
       else if sampleItem.consecutiveCorrect = 1 then 3
       else if sampleItem.consecutiveCorrect = 2 then 7
       else jsRound ((sampleItem.interval : ℚ) * sampleItem.easeFactor)) ∧
    (updateSpacedRepetition sampleItem 4 5).nextReview =
      5 + (updateSpacedRepetition sampleItem 4 5).interval * 86400000 :=
  success_progression sampleItem 4 5 (by decide)

/-- One review step never brings the ease factor below 1.3. -/
theorem easeFactor_floor_step (item : SpacedRepetitionItem) (quality now : ℤ)
    (hef : (13 : ℚ)/10 ≤ item.easeFactor) :
    (13 : ℚ)/10 ≤ (updateSpacedRepetition item quality now).easeFactor := by
  by_cases hq : quality < 3
  · simpa [updateSpacedRepetition, hq] using hef
  · simp only [updateSpacedRepetition, if_neg hq]
    exact le_max_left _ _

/-- C7: the ease factor never falls below 1.3: starting from any state
with `easeFactor ≥ 1.3`, any sequence of reviews with qualities in
`0..5` (in particular repeated quality-0 reviews) leaves
`easeFactor ≥ 1.3`. -/
theorem easeFactor_floor (item : SpacedRepetitionItem)
    (reviews : List (ℤ × ℤ))
    (hef : (13 : ℚ)/10 ≤ item.easeFactor)
    (hq : ∀ p ∈ reviews, 0 ≤ p.1 ∧ p.1 ≤ 5) :
    (13 : ℚ)/10 ≤
      (reviews.foldl (fun it p => updateSpacedRepetition it p.1 p.2) item).easeFactor := by
  induction reviews generalizing item with
  | nil => exact hef
  | cons p ps ih =>
    exact ih _ (easeFactor_floor_step item p.1 p.2 hef)
      (fun q hmem => hq q (List.mem_cons_of_mem _ hmem))

/-- Witness for C7: two quality-0 reviews starting from ease 2.5. -/
theorem easeFactor_floor_witness :
    (13 : ℚ)/10 ≤
      (([((0 : ℤ), (1 : ℤ)), (0, 86400002)]).foldl
        (fun it p => updateSpacedRepetition it p.1 p.2) sampleItem).easeFactor :=
  easeFactor_floor sampleItem [(0, 1), (0, 86400002)] (by norm_num [sampleItem])
    (by decide)

/-- C8: ease-factor monotonicity in quality: for `3 ≤ q1 ≤ q2 ≤ 5` and the
same incoming state, the updated ease factor for `q2` is at least the one
for `q1`. -/
theorem easeFactor_monotone (item : SpacedRepetitionItem) (q1 q2 now : ℤ)
    (h1 : 3 ≤ q1) (h12 : q1 ≤ q2) (h2 : q2 ≤ 5) :
    (updateSpacedRepetition item q1 now).easeFactor ≤
      (updateSpacedRepetition item q2 now).easeFactor := by
  have hn1 : ¬ q1 < 3 := not_lt.mpr h1
  have hn2 : ¬ q2 < 3 := not_lt.mpr (le_trans h1 h12)
  simp only [updateSpacedRepetition, if_neg hn1, if_neg hn2]
  apply max_le_max le_rfl
  apply add_le_add_left
  have ha : (q1 : ℚ) ≤ (q2 : ℚ) := by exact_mod_cast h12
  have hb : (q2 : ℚ) ≤ 5 := by exact_mod_cast h2
  have hc : (3 : ℚ) ≤ (q1 : ℚ) := by exact_mod_cast h1
  nlinarith [mul_nonneg (sub_nonneg.mpr ha) (sub_nonneg.mpr hb)]

/-- Witness for C8 at quality 3 versus quality 5. -/
theorem easeFactor_monotone_witness :
    (updateSpacedRepetition sampleItem 3 5).easeFactor ≤
      (updateSpacedRepetition sampleItem 5 5).easeFactor :=
  easeFactor_monotone sampleItem 3 5 5 (by decide) (by decide) (by decide)

/-- C9: every scheduler update returns a state whose stored `stage` equals
the classification `getItemStage` derives from the other fields, so the
coupling invariant is preserved on all reachable states (updates happen
at positive wall-clock times, hence `0 < now`). -/
theorem stage_is_derived (item : SpacedRepetitionItem) (quality now : ℤ)
    (hnow : 0 < now) :
    (updateSpacedRepetition item quality now).stage =
      getItemStage (updateSpacedRepetition item quality now) := by
  have hne : now ≠ 0 := ne_of_gt hnow
  by_cases hq : quality < 3
  · simp [updateSpacedRepetition, hq, getItemStage, hne]
  · simp [updateSpacedRepetition, hq, getItemStage]

/-- Witness for C9 at a concrete state, rating, and time. -/
theorem stage_is_derived_witness :
    (updateSpacedRepetition sampleItem 4 5).stage =
      getItemStage (updateSpacedRepetition sampleItem 4 5) :=
  stage_is_derived sampleItem 4 5 (by decide)

/-! ### Normalizer lemmas -/

theorem mem_collapseRuns : ∀ {c x : Char} {l : List Char}, x ∈ collapseRuns c l → x ∈ l
  | _, _, [], h => h
  | _, _, [_], h => h
  | c, x, p :: q :: t, h => by
    simp only [collapseRuns] at h
    split at h
    · exact List.mem_cons_of_mem _ (mem_collapseRuns h)
    · rcases List.mem_cons.mp h with h1 | h2
      · exact List.mem_cons.mpr (Or.inl h1)
      · exact List.mem_cons_of_mem _ (mem_collapseRuns h2)

theorem mem_collapseAdj : ∀ {x : Char} {l : List Char}, x ∈ collapseAdj l → x ∈ l
  | _, [], h => h
  | _, [_], h => h
  | x, p :: q :: t, h => by
    simp only [collapseAdj] at h
    split at h
    · exact List.mem_cons_of_mem _ (mem_collapseAdj h)
    · rcases List.mem_cons.mp h with h1 | h2
      · exact List.mem_cons.mpr (Or.inl h1)
      · exact List.mem_cons_of_mem _ (mem_collapseAdj h2)

theorem mem_replacePair : ∀ {a b r x : Char} {l : List Char},
    x ∈ replacePair a b r l → x ∈ l ∨ x = r
  | _, _, _, _, [], h => Or.inl h
  | _, _, _, _, [_], h => Or.inl h
  | a, b, r, x, p :: q :: t, h => by
    simp only [replacePair] at h
    split at h
    · rcases List.mem_cons.mp h with h1 | h2
      · exact Or.inr h1
      · rcases mem_replacePair h2 with h3 | h4
        · exact Or.inl (List.mem_cons_of_mem _ (List.mem_cons_of_mem _ h3))
        · exact Or.inr h4
    · rcases List.mem_cons.mp h with h1 | h2
      · exact Or.inl (List.mem_cons.mpr (Or.inl h1))
      · rcases mem_replacePair h2 with h3 | h4
        · exact Or.inl (List.mem_cons_of_mem _ h3)
        · exact Or.inr h4

theorem mem_aieiRule : ∀ {x : Char} {l : List Char}, x ∈ aieiRule l → x ∈ l ∨ x = 'i'
  | _, [], h => Or.inl h
  | _, [_], h => Or.inl h
  | x, p :: q :: t, h => by
    simp only [aieiRule] at h
    split at h
    · rcases List.mem_cons.mp h with h1 | h2
      · exact Or.inr h1
      · rcases mem_aieiRule h2 with h3 | h4
        · exact Or.inl (List.mem_cons_of_mem _ (List.mem_cons_of_mem _ h3))
        · exact Or.inr h4
    · rcases List.mem_cons.mp h with h1 | h2
      · exact Or.inl (List.mem_cons.mpr (Or.inl h1))
      · rcases mem_aieiRule h2 with h3 | h4
        · exact Or.inl (List.mem_cons_of_mem _ h3)
        · exact Or.inr h4

theorem mem_enRule {x : Char} {l : List Char} (h : x ∈ enRule l) :
    x ∈ l ∨ x = 'a' ∨ x = 'n' := by
  unfold enRule at h
  split at h
  · rcases List.mem_append.mp h with h1 | h2
    · exact Or.inl (List.take_subset _ _ h1)
    · rcases List.mem_cons.mp h2 with h3 | h4
      · exact Or.inr (Or.inl h3)
      · simp only [List.mem_singleton] at h4
        exact Or.inr (Or.inr h4)
  · exact Or.inl h

theorem mem_dropPrefixArAl {x : Char} {l : List Char} (h : x ∈ dropPrefixArAl l) :
    x ∈ l := by
  unfold dropPrefixArAl at h
  split at h
  · exact List.mem_cons_of_mem _ (List.mem_cons_of_mem _ h)
  · exact List.mem_cons_of_mem _ (List.mem_cons_of_mem _ h)
  · exact h

theorem allLower_filter (l : List Char) :
    allLower ((l.map jsToLower).filter isLowerAlpha) :=
  fun _ hc => (List.mem_filter.mp hc).2

theorem allLower_dropPrefixArAl {l : List Char} (h : allLower l) :
    allLower (dropPrefixArAl l) :=
  fun c hc => h c (mem_dropPrefixArAl hc)

theorem allLower_collapseRuns (ch : Char) {l : List Char} (h : allLower l) :
    allLower (collapseRuns ch l) :=
  fun c hc => h c (mem_collapseRuns hc)

theorem allLower_replacePair {a b r : Char} (hr : isLowerAlpha r = true)
    {l : List Char} (h : allLower l) : allLower (replacePair a b r l) := by
  intro c hc
  rcases mem_replacePair hc with h1 | h2
  · exact h c h1
  · rw [h2]; exact hr

theorem allLower_aieiRule {l : List Char} (h : allLower l) : allLower (aieiRule l) := by
  intro c hc
  rcases mem_aieiRule hc with h1 | h2
  · exact h c h1
  · rw [h2]; decide

theorem allLower_enRule {l : List Char} (h : allLower l) : allLower (enRule l) := by
  intro c hc
  rcases mem_enRule hc with h1 | h2 | h3
  · exact h c h1
  · rw [h2]; decide
  · rw [h3]; decide

theorem allLower_collapseAdj {l : List Char} (h : allLower l) :
    allLower (collapseAdj l) :=
  fun c hc => h c (mem_collapseAdj hc)

theorem allLower_normalizeCore (s : List Char) : allLower (normalizeCore s) := by
  simp only [normalizeCore]
  apply allLower_collapseAdj
  apply allLower_enRule
  apply allLower_replacePair (by decide)
  apply allLower_aieiRule
  apply allLower_replacePair (by decide)
  apply allLower_replacePair (by decide)
  apply allLower_collapseRuns
  apply allLower_collapseRuns
  apply allLower_collapseRuns
  apply allLower_collapseRuns
  apply allLower_collapseRuns
  apply allLower_dropPrefixArAl
  exact allLower_filter s

theorem collapseAdj_cons : ∀ (y : Char) (xs : List Char),
    ∃ t, collapseAdj (y :: xs) = y :: t
  | _, [] => ⟨[], rfl⟩
  | y, z :: zs => by
    simp only [collapseAdj]
    split
    · next h =>
      obtain ⟨t, ht⟩ := collapseAdj_cons z zs
      exact ⟨t, by rw [ht, h]⟩
    · exact ⟨collapseAdj (z :: zs), rfl⟩

theorem dupFree_collapseAdj : ∀ (l : List Char), dupFree (collapseAdj l) = true
  | [] => rfl
  | [_] => rfl
  | x :: y :: ys => by
    simp only [collapseAdj]
    split
    · exact dupFree_collapseAdj (y :: ys)
    · next h =>
      obtain ⟨t, ht⟩ := collapseAdj_cons y ys
      rw [ht]
      have hrec := dupFree_collapseAdj (y :: ys)
      rw [ht] at hrec
      simp only [dupFree, Bool.and_eq_true]
      exact ⟨by simp [h], hrec⟩

theorem collapseAdj_id : ∀ {l : List Char}, dupFree l = true → collapseAdj l = l
  | [], _ => rfl
  | [_], _ => rfl
  | x :: y :: ys, h => by
    simp only [dupFree, Bool.and_eq_true] at h
    have hne : ¬ (x = y) := by simpa using h.1
    simp only [collapseAdj]
    rw [if_neg hne, collapseAdj_id h.2]

theorem collapseRuns_id : ∀ (c : Char) {l : List Char},
    dupFree l = true → collapseRuns c l = l
  | _, [], _ => rfl
  | _, [_], _ => rfl
  | c, x :: y :: ys, h => by
    simp only [dupFree, Bool.and_eq_true] at h
    have hne : ¬ (x = y) := by simpa using h.1
    have hcond : ¬ (x = c ∧ y = c) := fun hc => hne (hc.1.trans hc.2.symm)
    simp only [collapseRuns]
    rw [if_neg hcond, collapseRuns_id c h.2]

theorem dupFree_normalizeCore (s : List Char) : dupFree (normalizeCore s) = true := by
  simp only [normalizeCore]
  exact dupFree_collapseAdj _

theorem map_jsToLower_id : ∀ {l : List Char}, allLower l → l.map jsToLower = l
  | [], _ => rfl
  | x :: xs, h => by
    have hx := h x (List.mem_cons_self x xs)
    have hxs : allLower xs := fun c hc => h c (List.mem_cons_of_mem _ hc)
    simp only [List.map_cons, map_jsToLower_id hxs]
    simp only [isLowerAlpha, decide_eq_true_eq] at hx
    have hcase : jsToLower x = x := by
      unfold jsToLower
      rw [if_neg]
      intro hAZ
      exact absurd (le_trans hx.1 hAZ.2) (by decide)
    rw [hcase]

theorem filter_isLowerAlpha_id {l : List Char} (h : allLower l) :
    l.filter isLowerAlpha = l :=
  List.filter_eq_self.mpr h

/-- A string left untouched by the prefix-drop, digraph, kh, and
trailing-en rules, all-lowercase and free of adjacent duplicates, is a
fixed point of `normalizeCore`. -/
theorem normalizeCore_fixed (t : List Char) (hlow : allLower t)
    (hdf : dupFree t = true)
    (h1 : dropPrefixArAl t = t)
    (h2 : replacePair 'a' 'e' 'a' t = t)
    (h3 : replacePair 'o' 'u' 'u' t = t)
    (h4 : aieiRule t = t)
    (h5 : replacePair 'k' 'h' 'h' t = t)
    (h6 : enRule t = t) :
    normalizeCore t = t := by
  simp only [normalizeCore]
  rw [map_jsToLower_id hlow, filter_isLowerAlpha_id hlow, h1,
    collapseRuns_id 'a' hdf, collapseRuns_id 'e' hdf, collapseRuns_id 'i' hdf,
    collapseRuns_id 'o' hdf, collapseRuns_id 'u' hdf,
    h2, h3, h4, h5, h6, collapseAdj_id hdf]

/-- C5 counterexample: `normalizeCore` is not idempotent — "aali"
normalizes to "ali", whose own normal form is "i" (the al-prefix drop
fires again on the output). -/
theorem normalize_not_idempotent :
    normalizeCore (normalizeCore ("aali".toList)) ≠ normalizeCore ("aali".toList) := by
  decide

/-- C5 (amended): `normalizeCore` is idempotent on every input whose
normalized form is untouched by the prefix-drop, the three digraph
rules, the kh rule, and the trailing-en rule.  (Each of these rules can
fire again on a normalized output — e.g. "aali" → "ali" → "i" — so the
unamended claim fails; the remaining stages are always the identity on
outputs, which are lowercase and free of adjacent duplicates.) -/
theorem normalize_idempotent_amended (s : List Char)
    (h1 : dropPrefixArAl (normalizeCore s) = normalizeCore s)
    (h2 : replacePair 'a' 'e' 'a' (normalizeCore s) = normalizeCore s)
    (h3 : replacePair 'o' 'u' 'u' (normalizeCore s) = normalizeCore s)
    (h4 : aieiRule (normalizeCore s) = normalizeCore s)
    (h5 : replacePair 'k' 'h' 'h' (normalizeCore s) = normalizeCore s)
    (h6 : enRule (normalizeCore s) = normalizeCore s) :
    normalizeCore (normalizeCore s) = normalizeCore s :=
  normalizeCore_fixed (normalizeCore s) (allLower_normalizeCore s)
    (dupFree_normalizeCore s) h1 h2 h3 h4 h5 h6

/-- Witness for the amended C5 on the input "rahman". -/
theorem normalize_idempotent_amended_witness :
    normalizeCore (normalizeCore ("rahman".toList)) = normalizeCore ("rahman".toList) :=
  normalize_idempotent_amended ("rahman".toList) (by decide) (by decide) (by decide)
    (by decide) (by decide) (by decide)

/-- C6: when the normalized input has length at most 3, `matchesName`
agrees with the pure exact-normalized-match test (so fuzzy edit-distance
matching never applies); in particular "ali" does not match an item named
Aleem while "rahmaan" matches an item named Rahman. -/
theorem short_input_exact_only :
    (∀ (input : List Char) (target : DivineName),
        (normalizeCore input).length ≤ 3 →
        matchesName input target = exactMatches input target) ∧
    matchesName ("ali".toList) aleemName = false ∧
    matchesName ("rahmaan".toList) rahmanName = true := by
  refine ⟨?_, by decide, by decide⟩
  intro input target hlen
  simp only [matchesName, exactMatches]
  cases hA : ((target.englishName :: target.aliases).map normalizeCore).any
      (fun c => normalizeCore input == c) with
  | true => simp [hA]
  | false => simp [hA, hlen]

/-- Witness for C6 at the short input "xyz" against the Rahman item. -/
theorem short_input_exact_only_witness :
    matchesName ("xyz".toList) rahmanName = exactMatches ("xyz".toList) rahmanName :=
  short_input_exact_only.1 ("xyz".toList) rahmanName (by decide)

end NinetyNine
